import Mathlib

/-!
Shallow embedding of the trick-taking game server engine.

Data model from src/types/index.ts; pure game logic from src/game-logic/utils.ts
and src/game-logic/rules.ts; the state sanitizer, the autoplay heuristic and the
play-card state update from src/index.ts.  Randomness (Math.random) is made
explicit as a function or number parameter; JavaScript in-place array mutation is
modelled by returning updated lists.  JavaScript stable Array.prototype.sort with
a numeric comparator is modelled by a stable insertion sort over the boolean
relation "comparator result is not positive".
-/

/-! ## Data model (src/types/index.ts) -/

inductive Suit where
  | hearts | diamonds | clubs | spades
deriving DecidableEq, Repr, Fintype

inductive Rank where
  | n2 | n3 | n4 | n5 | n6 | n7 | n8 | n9 | n10 | J | Q | K | A
deriving DecidableEq, Repr, Fintype

structure Card where
  suit : Suit
  rank : Rank
deriving DecidableEq, Repr

structure User where
  id : String
  socketId : String
  name : String
  isHost : Bool
  status : String
deriving DecidableEq, Repr

structure Player extends User where
  hand : List Card
  tricksWon : Nat
  agoraUid : Nat
deriving DecidableEq, Repr

structure TrickCard where
  playerId : String
  card : Card
deriving DecidableEq, Repr

inductive GameStatus where
  | waiting | playing | finished
deriving DecidableEq, Repr

structure GameState where
  id : String
  players : List Player
  deck : List Card
  currentTrick : List TrickCard
  leadSuit : Option Suit
  currentPlayerId : String
  turnOrder : List String
  round : Nat
  trickNumber : Nat
  status : GameStatus
  hostId : String
  maxPlayers : Nat
deriving DecidableEq, Repr

/-- Out-of-bounds default used to model JavaScript array indexing that the source
always performs in bounds. -/
def defaultCard : Card := ⟨Suit.spades, Rank.n2⟩

def defaultUser : User := ⟨"", "", "", false, "online"⟩

def defaultPlayer : Player := { defaultUser with hand := [], tricksWon := 0, agoraUid := 0 }

/-! ## Utilities (src/game-logic/utils.ts) -/

def allSuits : List Suit := [Suit.hearts, Suit.diamonds, Suit.clubs, Suit.spades]

def allRanks : List Rank :=
  [Rank.n2, Rank.n3, Rank.n4, Rank.n5, Rank.n6, Rank.n7, Rank.n8, Rank.n9, Rank.n10,
   Rank.J, Rank.Q, Rank.K, Rank.A]

def getCardValue (card : Card) : Nat :=
  match card.rank with
  | .n2 => 2 | .n3 => 3 | .n4 => 4 | .n5 => 5 | .n6 => 6 | .n7 => 7 | .n8 => 8
  | .n9 => 9 | .n10 => 10 | .J => 11 | .Q => 12 | .K => 13 | .A => 14

/-- One step of a stable insertion sort: the incoming element is placed after
every already placed element b with le b a.  For a total preorder this computes
the same list as any stable comparison sort, hence models JavaScript
Array.prototype.sort with comparator cmp via le a b = (cmp a b is not positive). -/
def sortInsert (le : α → α → Bool) (a : α) : List α → List α
  | [] => [a]
  | b :: l => if le b a then b :: sortInsert le a l else a :: b :: l

/-- Stable sort, modelling JavaScript Array.prototype.sort. -/
def jsSortBy (le : α → α → Bool) (l : List α) : List α :=
  l.foldl (fun acc x => sortInsert le x acc) []

/-- sortCards from utils.ts: ascending by card value. -/
def sortCards (cards : List Card) : List Card :=
  jsSortBy (fun a b => decide (getCardValue a ≤ getCardValue b)) cards

/-- groupHandBySuit from utils.ts: a map from each of the four suits, in
allSuits order, to the cards of the hand of that suit in hand order. -/
def groupHandBySuit (hand : List Card) : List (Suit × List Card) :=
  allSuits.map (fun s => (s, hand.filter (fun c => c.suit == s)))

/-- One Fisher-Yates step: the destructuring swap of positions i and j. -/
def swapAt (l : List Card) (i j : Nat) : List Card :=
  (l.set i (l.getD j defaultCard)).set j (l.getD i defaultCard)

/-- shuffleDeck from utils.ts.  Math.floor(Math.random() * (i + 1)) is modelled
by rnd i % (i + 1), which ranges over exactly the same values 0..i. -/
def shuffleDeck (deck : List Card) (rnd : Nat → Nat) : List Card :=
  (((List.range deck.length).drop 1).reverse).foldl
    (fun d i => swapAt d i (rnd i % (i + 1))) deck

/-! ## Rules (src/game-logic/rules.ts) -/

/-- The 52-card deck in construction order: for each suit of allSuits, all
ranks of allRanks. -/
def orderedDeck : List Card :=
  allSuits.flatMap (fun s => allRanks.map (fun r => ⟨s, r⟩))

/-- createDeck from rules.ts: build the 52-card deck and shuffle it. -/
def createDeck (rnd : Nat → Nat) : List Card :=
  shuffleDeck orderedDeck rnd

/-- Comparator of the per-hand sort in dealCards: by suit position in allSuits,
then by descending card value. -/
def handSortLE (a b : Card) : Bool :=
  decide (allSuits.indexOf a.suit < allSuits.indexOf b.suit) ||
    (decide (allSuits.indexOf a.suit = allSuits.indexOf b.suit) &&
      decide (getCardValue b ≤ getCardValue a))

/-- The hand of player j before sorting: cards at indices i with i % numPlayers
= j among the first cardsPerPlayer * numPlayers cards of the deck, in deck
order (the loop pushes deck i onto hand (i % numPlayers)). -/
def dealtHand (deck : List Card) (numPlayers j : Nat) : List Card :=
  ((List.range (deck.length / numPlayers * numPlayers)).filter
      (fun i => i % numPlayers = j)).map
    (fun i => deck.getD i defaultCard)

/-- dealCards from rules.ts: round-robin assignment of the first
floor(deck.length / numPlayers) * numPlayers cards, then each hand sorted for
presentation. -/
def dealCards (deck : List Card) (numPlayers : Nat) : List (List Card) :=
  (List.range numPlayers).map (fun j => jsSortBy handSortLE (dealtHand deck numPlayers j))

/-- The busy-wait rotation of setupNewGame: rotate the list left until its head
is t, with explicit fuel (the source while-loop terminates because t occurs in
the list; list length is enough fuel). -/
def rotateToStart (fuel : Nat) (t : String) (l : List String) : List String :=
  match fuel with
  | 0 => l
  | fuel + 1 =>
    if l.head? = some t then l else rotateToStart fuel t (l.drop 1 ++ l.take 1)

/-- The starting-player computation of setupNewGame: the first player holding
the two of clubs; otherwise the first host (JavaScript || falls through to
players[0].id when the host id is the empty string); otherwise the first
player. -/
def startingPlayerOf (players : List Player) : String :=
  let hostFallback :=
    match players.find? (fun p => p.isHost) with
    | some p => if p.id = "" then (players.headD defaultPlayer).id else p.id
    | none => (players.headD defaultPlayer).id
  match players.find? (fun p =>
      p.hand.any (fun card => card.suit == Suit.clubs && card.rank == Rank.n2)) with
  | some p => p.id
  | none => hostFallback

/-- setupNewGame from rules.ts.  The source calls createDeck, which consumes
Math.random; the random source is the explicit parameter rnd. -/
def setupNewGame (rnd : Nat → Nat) (playerList : List User) (gameId : String)
    (maxPlayers : Nat) : GameState :=
  let deck := createDeck rnd
  let hands := dealCards deck playerList.length
  let players : List Player := playerList.enum.map (fun ip =>
    { ip.2 with hand := hands.getD ip.1 [], tricksWon := 0, agoraUid := 1000 + ip.1 })
  let startingPlayerId := startingPlayerOf players
  let ids := players.map (fun p => p.id)
  let turnOrder := rotateToStart ids.length startingPlayerId ids
  let hostId :=
    match playerList.find? (fun p => p.isHost) with
    | some p => if p.id = "" then (playerList.headD defaultUser).id else p.id
    | none => (playerList.headD defaultUser).id
  { id := gameId, players := players, deck := [], currentTrick := [],
    leadSuit := none, currentPlayerId := startingPlayerId, turnOrder := turnOrder,
    round := 1, trickNumber := 1, status := GameStatus.playing, hostId := hostId,
    maxPlayers := maxPlayers }

structure MoveValidation where
  valid : Bool
  message : String
deriving DecidableEq, Repr

def suitName : Suit → String
  | .hearts => "hearts" | .diamonds => "diamonds" | .clubs => "clubs" | .spades => "spades"

/-- isMoveValid from rules.ts.  The two source messages containing an
apostrophe are written here with the contraction expanded. -/
def isMoveValid (gameState : GameState) (playerId : String) (card : Card) :
    MoveValidation :=
  match gameState.players.find? (fun p => p.id == playerId) with
  | none => ⟨false, "Player not found."⟩
  | some player =>
    if gameState.currentPlayerId ≠ playerId then
      ⟨false, "It is not your turn."⟩
    else if ¬ (player.hand.any (fun c => c.suit == card.suit && c.rank == card.rank)) then
      ⟨false, "You do not have that card in your hand."⟩
    else
      match gameState.leadSuit with
      | some leadSuit =>
        if player.hand.any (fun c => c.suit == leadSuit) ∧ card.suit ≠ leadSuit then
          ⟨false, "You must follow suit by playing a " ++ suitName leadSuit ++ "."⟩
        else ⟨true, ""⟩
      | none => ⟨true, ""⟩

/-- determineTrickWinner from rules.ts: fold over the trick keeping the first
lead-suit card of strictly highest value seen so far; highestValue starts at -1.
The source dereferences winningCard with a non-null assertion; the none result
models the exception when no lead-suit card exists. -/
def determineTrickWinner (trick : List TrickCard) (leadSuit : Suit) : Option String :=
  (trick.foldl
      (fun (acc : Option TrickCard × Int) tc =>
        if tc.card.suit = leadSuit ∧ (getCardValue tc.card : Int) > acc.2 then
          (some tc, (getCardValue tc.card : Int))
        else acc)
      (none, -1)).1.map (fun tc => tc.playerId)

/-- The find-then-mutate idiom of processTrickWin: update the first element
satisfying p, leave the list unchanged when none does. -/
def updateFirstBy (p : Player → Bool) (f : Player → Player) : List Player → List Player
  | [] => []
  | x :: xs => if p x then f x :: xs else x :: updateFirstBy p f xs

/-- processTrickWin from rules.ts.  gameState.players[0] on an empty players
list would throw in the source; it is modelled by headD defaultPlayer (whose
hand is empty). -/
def processTrickWin (gameState : GameState) (winningPlayerId : String) : GameState :=
  let players := updateFirstBy (fun p => p.id == winningPlayerId)
    (fun p => { p with tricksWon := p.tricksWon + 1 }) gameState.players
  let isGameOver := (players.headD defaultPlayer).hand.length = 0
  { gameState with
    players := players,
    currentTrick := [],
    leadSuit := none,
    currentPlayerId := winningPlayerId,
    trickNumber := gameState.trickNumber + 1,
    status := if isGameOver then GameStatus.finished else GameStatus.playing }

/-- getNextPlayerId from rules.ts.  JavaScript indexOf returns -1 when the
element is absent, so nextIndex = (-1 + 1) % length = 0 in that case. -/
def getNextPlayerId (gameState : GameState) : String :=
  let currentIndex : Int :=
    if gameState.currentPlayerId ∈ gameState.turnOrder then
      (gameState.turnOrder.indexOf gameState.currentPlayerId : Int)
    else -1
  let nextIndex : Int := (currentIndex + 1) % (gameState.turnOrder.length : Int)
  gameState.turnOrder.getD nextIndex.toNat ""

/-! ## Engine pieces from src/index.ts -/

/-- The fixed placeholder card of sanitizeGameStateForPlayer: suit spades,
rank 2. -/
def placeholderCard : Card := ⟨Suit.spades, Rank.n2⟩

/-- sanitizeGameStateForPlayer from index.ts: the target player keeps the full
hand, every other player keeps every field except that each hand card is
replaced by the placeholder. -/
def sanitizeGameStateForPlayer (fullState : GameState) (targetPlayerId : String) :
    GameState :=
  { fullState with
    players := fullState.players.map (fun player =>
      if player.id = targetPlayerId then player
      else { player with hand := player.hand.map (fun _ => placeholderCard) }) }

/-- The card-selection logic of triggerAutoPlay from index.ts, as a function of
the hand, the trick in progress, the lead suit and the random draw used for the
longest-suit tie break (Math.floor(Math.random() * longestSuits.length) is
modelled as rnd % longestSuits.length).  none models the early return on an
empty hand and is never produced otherwise. -/
def autoPlayChosenCard (hand : List Card) (currentTrick : List TrickCard)
    (leadSuit : Option Suit) (rnd : Nat) : Option Card :=
  if hand = [] then none
  else
    match leadSuit with
    | some ls =>
      let followSuitCards := sortCards (hand.filter (fun c => c.suit == ls))
      if followSuitCards ≠ [] then
        let winningCardInTrick :=
          (jsSortBy (fun a b => decide (getCardValue b.card ≤ getCardValue a.card))
              (currentTrick.filter (fun tc => tc.card.suit == ls))).head?.map
            (fun tc => tc.card)
        let winningHandCards :=
          match winningCardInTrick with
          | some w => followSuitCards.filter (fun c => decide (getCardValue w < getCardValue c))
          | none => followSuitCards
        if winningHandCards ≠ [] then winningHandCards.getLast? else followSuitCards.head?
      else
        let suitGroups := groupHandBySuit hand
        let best := suitGroups.foldl
          (fun (acc : Nat × List Suit) g =>
            if acc.1 < g.2.length then (g.2.length, [g.1])
            else if g.2.length = acc.1 then (acc.1, acc.2 ++ [g.1])
            else acc)
          (0, [])
        let chosenSuit := best.2.getD (rnd % best.2.length) Suit.hearts
        (sortCards (hand.filter (fun c => c.suit == chosenSuit))).head?
    | none =>
      match hand with
      | [] => none
      | h :: t =>
        some (t.foldl (fun highest current =>
          if getCardValue highest < getCardValue current then current else highest) h)

/-- The synchronous state change of handlePlayCardLogic from index.ts: remove
the card from the hand of the acting player, append it to the current trick,
set the lead suit if not yet set, and either clear currentPlayerId to the
empty-string sentinel (trick complete) or advance currentPlayerId to the next
player in turn order. -/
def playCardUpdate (gameState : GameState) (playerId : String) (card : Card) :
    GameState :=
  let players := updateFirstBy (fun p => p.id == playerId)
    (fun p =>
      { p with
        hand := p.hand.filter (fun c => ¬ (c.rank == card.rank && c.suit == card.suit)) })
    gameState.players
  let currentTrick := gameState.currentTrick ++ [⟨playerId, card⟩]
  let leadSuit :=
    match gameState.leadSuit with
    | none => some card.suit
    | some s => some s
  let gs := { gameState with
    players := players, currentTrick := currentTrick, leadSuit := leadSuit }
  if gs.currentTrick.length = gs.players.length then
    { gs with currentPlayerId := "" }
  else
    { gs with currentPlayerId := getNextPlayerId gs }

/-- The game states the engine in index.ts can produce: a freshly set-up game,
and the closure under the mutations the engine performs on a stored game: the
play-card update (reached by a validated human play or by autoplay), trick
resolution by processTrickWin on the winner computed by determineTrickWinner,
turn advancement by advanceToNextTurn, and player pruning on permanent
disconnect. -/
inductive Reachable : GameState → Prop
  | init (rnd : Nat → Nat) (playerList : List User) (gameId : String)
      (maxPlayers : Nat) (hne : playerList ≠ []) :
      Reachable (setupNewGame rnd playerList gameId maxPlayers)
  | playHuman (gs : GameState) (playerId : String) (card : Card)
      (hr : Reachable gs) (hturn : gs.currentPlayerId = playerId)
      (hvalid : (isMoveValid gs playerId card).valid = true) :
      Reachable (playCardUpdate gs playerId card)
  | playAuto (gs : GameState) (playerId : String) (card : Card) (rnd : Nat)
      (hr : Reachable gs) (hturn : gs.currentPlayerId = playerId)
      (hhand : ∃ p ∈ gs.players, p.id = playerId ∧
        autoPlayChosenCard p.hand gs.currentTrick gs.leadSuit rnd = some card) :
      Reachable (playCardUpdate gs playerId card)
  | resolveTrick (gs : GameState) (leadSuit : Suit) (winnerId : String)
      (hr : Reachable gs) (hlead : gs.leadSuit = some leadSuit)
      (hwin : determineTrickWinner gs.currentTrick leadSuit = some winnerId) :
      Reachable (processTrickWin gs winnerId)
  | advanceTurn (gs : GameState) (hr : Reachable gs) :
      Reachable { gs with currentPlayerId := getNextPlayerId gs }
  | prune (gs : GameState) (userId : String) (hr : Reachable gs) :
      Reachable { gs with players := gs.players.filter (fun p => ¬ p.id == userId) }

/-! ## Spec-side definitions (used only to state claims) -/

/-- The value of the highest lead-suit card in the trick (0 when there is
none); spec-side notion used to state the autoplay claim. -/
def highestLeadValue (trick : List TrickCard) (ls : Suit) : Nat :=
  ((trick.filter (fun tc => tc.card.suit == ls)).map
    (fun tc => getCardValue tc.card)).foldr Nat.max 0

/-- The lead-suit cards of the hand that beat the highest lead-suit card
already in the trick; spec-side notion used to state the autoplay claim. -/
def beatingCards (hand : List Card) (trick : List TrickCard) (ls : Suit) : List Card :=
  hand.filter (fun b => b.suit == ls && decide (highestLeadValue trick ls < getCardValue b))

/-- Two states that agree on every field, and whose player entries agree on
everything except possibly the contents of the hands of players other than t;
hand lengths agree everywhere and the hand of every player with id t agrees
exactly. -/
def AgreeExceptOtherHands (s₁ s₂ : GameState) (t : String) : Prop :=
  s₁.id = s₂.id ∧ s₁.deck = s₂.deck ∧ s₁.currentTrick = s₂.currentTrick ∧
  s₁.leadSuit = s₂.leadSuit ∧ s₁.currentPlayerId = s₂.currentPlayerId ∧
  s₁.turnOrder = s₂.turnOrder ∧ s₁.round = s₂.round ∧
  s₁.trickNumber = s₂.trickNumber ∧ s₁.status = s₂.status ∧
  s₁.hostId = s₂.hostId ∧ s₁.maxPlayers = s₂.maxPlayers ∧
  List.Forall₂ (fun p q : Player =>
    p.toUser = q.toUser ∧ p.tricksWon = q.tricksWon ∧ p.agoraUid = q.agoraUid ∧
    p.hand.length = q.hand.length ∧ (p.id = t → p.hand = q.hand))
    s₁.players s₂.players

/-- The first player whose id is pid, as isMoveValid looks it up. -/
def findPlayer (gs : GameState) (pid : String) : Option Player :=
  gs.players.find? (fun p => p.id == pid)

/-- Rejection condition 1 of isMoveValid: the player id occurs nowhere. -/
def MoveCond1 (gs : GameState) (pid : String) : Prop :=
  ∀ p ∈ gs.players, p.id ≠ pid

/-- Rejection condition 2 of isMoveValid: it is not this player's turn. -/
def MoveCond2 (gs : GameState) (pid : String) : Prop :=
  gs.currentPlayerId ≠ pid

/-- Rejection condition 3 of isMoveValid: the card is not in the hand of the
looked-up player. -/
def MoveCond3 (gs : GameState) (pid : String) (card : Card) : Prop :=
  ∀ p, findPlayer gs pid = some p →
    ∀ c ∈ p.hand, ¬ (c.suit = card.suit ∧ c.rank = card.rank)

/-- Rejection condition 4 of isMoveValid: a lead suit is established, the
looked-up player holds at least one card of it, and the proposed card is of a
different suit. -/
def MoveCond4 (gs : GameState) (pid : String) (card : Card) : Prop :=
  ∃ ls, gs.leadSuit = some ls ∧ card.suit ≠ ls ∧
    ∀ p, findPlayer gs pid = some p → ∃ c ∈ p.hand, c.suit = ls

/-! ## Concrete example inputs for witnesses and counterexamples -/

/-- The trick of the scenario in the spec: A leads the 7 of diamonds, B the 2,
C the king, D an off-suit club. -/
def exTrick : List TrickCard :=
  [⟨"A", ⟨Suit.diamonds, Rank.n7⟩⟩, ⟨"B", ⟨Suit.diamonds, Rank.n2⟩⟩,
   ⟨"C", ⟨Suit.diamonds, Rank.K⟩⟩, ⟨"D", ⟨Suit.clubs, Rank.n3⟩⟩]

def exPlayerA : Player :=
  { id := "a", socketId := "sa", name := "Ann", isHost := true, status := "online",
    hand := [⟨Suit.hearts, Rank.n3⟩, ⟨Suit.spades, Rank.A⟩], tricksWon := 0,
    agoraUid := 1000 }

def exPlayerB : Player :=
  { id := "b", socketId := "sb", name := "Ben", isHost := false, status := "online",
    hand := [⟨Suit.hearts, Rank.n4⟩], tricksWon := 2, agoraUid := 1001 }

def exState : GameState :=
  { id := "g", players := [exPlayerA, exPlayerB], deck := [], currentTrick := [],
    leadSuit := some Suit.hearts, currentPlayerId := "a", turnOrder := ["a", "b"],
    round := 1, trickNumber := 1, status := GameStatus.playing, hostId := "a",
    maxPlayers := 2 }

/-- exState with the empty-string sentinel installed as currentPlayerId. -/
def exStateNoTurn : GameState := { exState with currentPlayerId := "" }

/-- A random source that, fed to createDeck, leaves the two of clubs at deck
position 51, which is never dealt when three players each receive 17 cards. -/
def exRnd : Nat → Nat := fun i => if i = 51 then 26 else 0

/-- Three users whose host has the empty string as id. -/
def exUsers : List User :=
  [⟨"a", "s1", "Alice", false, "online"⟩,
   ⟨"", "s2", "Host", true, "online"⟩,
   ⟨"b", "s3", "Bob", false, "online"⟩]

def exSoloUser : User := ⟨"solo", "s", "Solo", true, "online"⟩

/-- Hand holding the queen and king of hearts: both beat a jack of hearts, the
queen being the lowest beating card. -/
def exAutoHand : List Card := [⟨Suit.hearts, Rank.Q⟩, ⟨Suit.hearts, Rank.K⟩]

/-- A trick whose only (lead-suit) card is the jack of hearts. -/
def exAutoTrick : List TrickCard := [⟨"p1", ⟨Suit.hearts, Rank.J⟩⟩]

/-- Five pairwise distinct cards, to be dealt to two players. -/
def exDeck5 : List Card :=
  [⟨Suit.hearts, Rank.n2⟩, ⟨Suit.hearts, Rank.n3⟩, ⟨Suit.hearts, Rank.n4⟩,
   ⟨Suit.hearts, Rank.n5⟩, ⟨Suit.hearts, Rank.n6⟩]

/-! ## Helper lemmas: the stable sort -/

theorem sortInsert_perm (le : α → α → Bool) (a : α) (l : List α) :
    (sortInsert le a l).Perm (a :: l) := by
  induction l with
  | nil => simp [sortInsert]
  | cons b l ih =>
    simp only [sortInsert]
    split
    · exact (ih.cons b).trans (List.Perm.swap a b l)
    · exact List.Perm.refl _

theorem jsSortBy_perm_aux (le : α → α → Bool) :
    ∀ (l acc : List α),
      (l.foldl (fun acc x => sortInsert le x acc) acc).Perm (acc ++ l) := by
  intro l
  induction l with
  | nil => simp
  | cons x xs ih =>
    intro acc
    simp only [List.foldl_cons]
    refine (ih (sortInsert le x acc)).trans ?_
    refine (((sortInsert_perm le x acc).append_right xs).trans ?_)
    exact List.perm_middle.symm

theorem jsSortBy_perm (le : α → α → Bool) (l : List α) :
    (jsSortBy le l).Perm l := by
  simpa using jsSortBy_perm_aux le l []

theorem sortInsert_pairwise (le : α → α → Bool)
    (htrans : ∀ a b c, le a b = true → le b c = true → le a c = true)
    (htot : ∀ a b, le a b || le b a)
    (a : α) (l : List α) (hl : l.Pairwise (fun x y => le x y = true)) :
    (sortInsert le a l).Pairwise (fun x y => le x y = true) := by
  induction l with
  | nil => simp [sortInsert]
  | cons b t ih =>
    rcases List.pairwise_cons.mp hl with ⟨hb, ht⟩
    simp only [sortInsert]
    split
    · rename_i hba
      refine List.pairwise_cons.mpr ⟨?_, ih ht⟩
      intro y hy
      rcases List.mem_cons.mp ((sortInsert_perm le a t).mem_iff.mp hy) with h | h
      · subst h; exact hba
      · exact hb y h
    · rename_i hba
      refine List.pairwise_cons.mpr ⟨?_, hl⟩
      intro y hy
      have hab : le a b = true := by
        have := htot a b
        cases hab : le a b with
        | true => rfl
        | false =>
          cases hba' : le b a with
          | true => exact absurd hba' hba
          | false => simp [hab, hba'] at this
      rcases List.mem_cons.mp hy with h | h
      · subst h; exact hab
      · exact htrans a b y hab (hb y h)

theorem jsSortBy_pairwise (le : α → α → Bool)
    (htrans : ∀ a b c, le a b = true → le b c = true → le a c = true)
    (htot : ∀ a b, le a b || le b a) (l : List α) :
    (jsSortBy le l).Pairwise (fun x y => le x y = true) := by
  suffices h : ∀ (l acc : List α), acc.Pairwise (fun x y => le x y = true) →
      (l.foldl (fun acc x => sortInsert le x acc) acc).Pairwise
        (fun x y => le x y = true) by
    exact h l [] (by simp)
  intro l
  induction l with
  | nil => intro acc hacc; simpa using hacc
  | cons x xs ih =>
    intro acc hacc
    exact ih (sortInsert le x acc) (sortInsert_pairwise le htrans htot x acc hacc)

/-- The reflexivity a total boolean relation enjoys. -/
theorem le_refl_of_total (le : α → α → Bool) (htot : ∀ a b, le a b || le b a)
    (a : α) : le a a = true := by
  have := htot a a
  cases h : le a a with
  | true => rfl
  | false => simp [h] at this

/-- Every element of a sorted nonempty list is above the head. -/
theorem pairwise_head_le (le : α → α → Bool)
    (htot : ∀ a b, le a b || le b a)
    (x : α) (t : List α) (h : (x :: t).Pairwise (fun a b => le a b = true)) :
    ∀ y ∈ x :: t, le x y = true := by
  intro y hy
  rcases List.mem_cons.mp hy with h' | h'
  · rw [h']; exact le_refl_of_total le htot x
  · exact (List.pairwise_cons.mp h).1 y h'

/-- Every element of a sorted nonempty list is below the last element. -/
theorem pairwise_le_getLast (le : α → α → Bool)
    (htot : ∀ a b, le a b || le b a)
    (l : List α) (hne : l ≠ []) (h : l.Pairwise (fun a b => le a b = true)) :
    ∀ y ∈ l, le y (l.getLast hne) = true := by
  intro y hy
  have hdecomp : l.dropLast ++ [l.getLast hne] = l := List.dropLast_append_getLast hne
  rw [← hdecomp] at h hy
  rcases List.mem_append.mp hy with h' | h'
  · exact (List.pairwise_append.mp h).2.2 y h' (l.getLast hne) (List.mem_singleton_self _)
  · rw [List.mem_singleton] at h'
    subst h'
    exact le_refl_of_total le htot _

/-! ## Helper lemmas: the shuffle is a permutation -/

theorem swapAt_perm (l : List Card) (i j : Nat) (hi : i < l.length)
    (hj : j < l.length) : (swapAt l i j).Perm l := by
  rw [List.perm_iff_count]
  intro b
  unfold swapAt
  have hgi : l.getD i defaultCard = l[i] := List.getD_eq_getElem l _ hi
  have hgj : l.getD j defaultCard = l[j] := List.getD_eq_getElem l _ hj
  rw [hgi, hgj]
  have hj2 : j < (l.set i l[j]).length := by simpa using hj
  rw [List.count_set _ _ _ _ hj2, List.count_set _ _ _ _ hi]
  have hset : (l.set i l[j])[j] = l[j] := by
    rw [List.getElem_set]
    split <;> rfl
  rw [hset]
  simp only [beq_iff_eq]
  split_ifs with h1 h2 h2 <;>
    first
      | (have h3 : 1 ≤ l.count b := List.count_pos_iff.mpr (h1 ▸ List.getElem_mem hi)
         omega)
      | omega

theorem foldl_swap_perm (f : Nat → Nat) :
    ∀ (idxs : List Nat) (l : List Card), (∀ i ∈ idxs, i < l.length) →
      (idxs.foldl (fun d i => swapAt d i (f i % (i + 1))) l).Perm l := by
  intro idxs
  induction idxs with
  | nil => intro l _; exact List.Perm.refl l
  | cons i is ih =>
    intro l h
    have hi : i < l.length := h i (List.mem_cons_self i is)
    have hj : f i % (i + 1) < l.length :=
      Nat.lt_of_le_of_lt (Nat.le_of_lt_succ (Nat.mod_lt _ (Nat.succ_pos i))) hi
    have hswap := swapAt_perm l i (f i % (i + 1)) hi hj
    have hlen : (swapAt l i (f i % (i + 1))).length = l.length := hswap.length_eq
    simp only [List.foldl_cons]
    exact (ih (swapAt l i (f i % (i + 1)))
      (fun x hx => hlen ▸ h x (List.mem_cons_of_mem i hx))).trans hswap

theorem shuffleDeck_perm (deck : List Card) (rnd : Nat → Nat) :
    (shuffleDeck deck rnd).Perm deck := by
  unfold shuffleDeck
  apply foldl_swap_perm
  intro i hi
  rw [List.mem_reverse] at hi
  have := List.mem_of_mem_drop hi
  exact List.mem_range.mp this

theorem createDeck_perm (rnd : Nat → Nat) :
    (createDeck rnd).Perm orderedDeck :=
  shuffleDeck_perm orderedDeck rnd

/-! ## Helper lemmas: dealing -/

theorem sum_map_ite_zero : ∀ (n t c : Nat), n ≤ t →
    ((List.range n).map (fun j => if t = j then c else 0)).sum = 0 := by
  intro n
  induction n with
  | zero => intro t c _; rfl
  | succ k ih =>
    intro t c h
    rw [List.range_succ, List.map_append, List.sum_append,
      ih t c (Nat.le_of_succ_le h)]
    have : t ≠ k := by omega
    simp [this]

theorem sum_map_ite : ∀ (n t c : Nat), t < n →
    ((List.range n).map (fun j => if t = j then c else 0)).sum = c := by
  intro n
  induction n with
  | zero => intro t c h; omega
  | succ k ih =>
    intro t c h
    rw [List.range_succ, List.map_append, List.sum_append]
    rcases eq_or_lt_of_le (Nat.le_of_lt_succ h) with heq | hlt
    · rw [sum_map_ite_zero k t c (Nat.le_of_eq heq.symm)]
      simp [heq]
    · rw [ih t c hlt]
      have : t ≠ k := by omega
      simp [this]

theorem flatten_filter_mod_perm (n m : Nat) (hn : 0 < n) :
    (((List.range n).map
        (fun j => (List.range m).filter (fun i => i % n = j))).flatten).Perm
      (List.range m) := by
  rw [List.perm_iff_count]
  intro a
  rw [List.count_flatten, List.map_map]
  have hcount : ∀ j ∈ List.range n,
      (List.count a ∘ fun j => (List.range m).filter (fun i => i % n = j)) j =
        (fun j => if a % n = j then List.count a (List.range m) else 0) j := by
    intro j _
    simp only [Function.comp]
    by_cases h : a % n = j
    · rw [if_pos h]
      exact List.count_filter (by simp [h])
    · rw [if_neg h, List.count_eq_zero]
      intro hmem
      rw [List.mem_filter] at hmem
      exact h (by simpa using hmem.2)
  rw [List.map_congr_left hcount]
  exact sum_map_ite n (a % n) _ (Nat.mod_lt a hn)

theorem map_getD_range_eq_take (l : List Card) :
    ∀ (m : Nat), m ≤ l.length →
      (List.range m).map (fun i => l.getD i defaultCard) = l.take m := by
  intro m
  induction m with
  | zero => intro _; simp
  | succ k ih =>
    intro h
    have hk : k < l.length := h
    rw [List.range_succ, List.map_append, ih (Nat.le_of_succ_le h),
      List.take_succ]
    simp [List.getD, List.getElem?_eq_getElem hk]

theorem flatten_perm_of_forall₂ {L₁ L₂ : List (List α)}
    (h : List.Forall₂ List.Perm L₁ L₂) : L₁.flatten.Perm L₂.flatten := by
  induction h with
  | nil => exact List.Perm.refl _
  | cons h _ ih => simpa using h.append ih

theorem dealCards_flatten_perm (deck : List Card) (n : Nat) (hn : 0 < n) :
    ((dealCards deck n).flatten).Perm (deck.take (deck.length / n * n)) := by
  have h1 : ((dealCards deck n).flatten).Perm
      (((List.range n).map (fun j => dealtHand deck n j)).flatten) := by
    apply flatten_perm_of_forall₂
    unfold dealCards
    rw [List.forall₂_map_left_iff, List.forall₂_map_right_iff]
    apply List.forall₂_same.mpr
    intro j _
    exact jsSortBy_perm handSortLE (dealtHand deck n j)
  have h2 : ((List.range n).map (fun j => dealtHand deck n j)).flatten =
      (((List.range n).map
        (fun j => (List.range (deck.length / n * n)).filter
          (fun i => i % n = j))).flatten).map (fun i => deck.getD i defaultCard) := by
    rw [List.map_flatten, List.map_map]
    rfl
  refine (h1.trans ?_)
  rw [h2]
  refine ((flatten_filter_mod_perm n _ hn).map _).trans ?_
  rw [map_getD_range_eq_take deck _ (Nat.div_mul_le_self deck.length n)]

/-! ## Helper lemmas: find-and-update -/

theorem updateFirstBy_eq_of_exists (p : Player → Bool) (f : Player → Player) :
    ∀ (l : List Player), (∃ x ∈ l, p x = true) →
      ∃ l₁ x l₂, l = l₁ ++ x :: l₂ ∧ (∀ y ∈ l₁, p y = false) ∧ p x = true ∧
        updateFirstBy p f l = l₁ ++ f x :: l₂ := by
  intro l
  induction l with
  | nil => rintro ⟨x, hx, _⟩; simp at hx
  | cons a t ih =>
    intro hex
    by_cases hpa : p a = true
    · exact ⟨[], a, t, by simp, by simp, hpa, by simp [updateFirstBy, hpa]⟩
    · have hpa' : p a = false := by
        cases h : p a
        · rfl
        · exact absurd h hpa
      have hex' : ∃ x ∈ t, p x = true := by
        rcases hex with ⟨x, hx, hpx⟩
        rcases List.mem_cons.mp hx with rfl | hxt
        · exact absurd hpx hpa
        · exact ⟨x, hxt, hpx⟩
      rcases ih hex' with ⟨l₁, x, l₂, heq, hall, hpx, hupd⟩
      refine ⟨a :: l₁, x, l₂, by simp [heq], ?_, hpx, by simp [updateFirstBy, hpa', hupd]⟩
      intro y hy
      rcases List.mem_cons.mp hy with rfl | hyl₁
      · exact hpa'
      · exact hall y hyl₁

theorem updateFirstBy_eq_self (p : Player → Bool) (f : Player → Player) :
    ∀ (l : List Player), (∀ y ∈ l, p y = false) → updateFirstBy p f l = l := by
  intro l
  induction l with
  | nil => intro _; rfl
  | cons a t ih =>
    intro h
    have hpa := h a (List.mem_cons_self a t)
    simp [updateFirstBy, hpa, ih (fun y hy => h y (List.mem_cons_of_mem a hy))]

/-! ## Helper lemmas: the rotation loop of setupNewGame -/

theorem indexOf_append_singleton (t a : String) :
    ∀ (l : List String), t ∈ l → (l ++ [a]).indexOf t = l.indexOf t := by
  intro l
  induction l with
  | nil => intro h; simp at h
  | cons b l ih =>
    intro h
    by_cases hbt : b = t
    · subst hbt
      simp [List.indexOf_cons_self]
    · have ht : t ∈ l := by
        rcases List.mem_cons.mp h with h' | h'
        · exact absurd h'.symm hbt
        · exact h'
      rw [List.cons_append, List.indexOf_cons_ne _ hbt, List.indexOf_cons_ne _ hbt,
        ih ht]

theorem rotateToStart_eq (t : String) :
    ∀ (fuel : Nat) (l : List String), t ∈ l → l.indexOf t < fuel →
      rotateToStart fuel t l = l.drop (l.indexOf t) ++ l.take (l.indexOf t) := by
  intro fuel
  induction fuel with
  | zero => intro l _ h; omega
  | succ fuel ih =>
    intro l hmem hlt
    cases l with
    | nil => simp at hmem
    | cons a l' =>
      by_cases hat : a = t
      · subst hat
        rw [rotateToStart]
        simp [List.indexOf_cons_self]
      · rw [rotateToStart]
        have hhead : ¬ ((a :: l').head? = some t) := by simp [hat]
        rw [if_neg hhead]
        have htl' : t ∈ l' := by
          rcases List.mem_cons.mp hmem with h | h
          · exact absurd h.symm hat
          · exact h
        have hidx : (a :: l').indexOf t = l'.indexOf t + 1 :=
          List.indexOf_cons_ne _ hat
        have hd : (a :: l').drop 1 ++ (a :: l').take 1 = l' ++ [a] := by simp
        rw [hd, ih (l' ++ [a]) (List.mem_append_left _ htl')
          (by rw [indexOf_append_singleton t a l' htl']; omega),
          indexOf_append_singleton t a l' htl']
        have hlen : l'.indexOf t < l'.length := List.indexOf_lt_length.mpr htl'
        rw [List.drop_append_of_le_length (le_of_lt hlen),
          List.take_append_of_le_length (le_of_lt hlen), hidx,
          List.drop_succ_cons, List.take_succ_cons]
        simp

theorem rotateToStart_head (t : String) (l : List String) (hmem : t ∈ l) :
    (rotateToStart l.length t l).head? = some t := by
  have hlen : l.indexOf t < l.length := List.indexOf_lt_length.mpr hmem
  rw [rotateToStart_eq t l.length l hmem hlen, List.head?_append,
    List.head?_drop, List.getElem?_eq_getElem hlen, List.getElem_indexOf hlen]
  rfl

/-! ## Helper lemmas: the trick-winner fold -/

theorem getCardValue_ge_two (c : Card) : 2 ≤ getCardValue c := by
  rcases c with ⟨s, r⟩
  cases r <;> simp [getCardValue]

theorem winnerFold_spec (leadSuit : Suit) :
    ∀ (trick : List TrickCard) (best : Option TrickCard) (hv : Int),
      ((best = none ∧ hv = -1) ∨
        (∃ b, best = some b ∧ b.card.suit = leadSuit ∧
          hv = (getCardValue b.card : Int))) →
      ((trick.foldl
          (fun (acc : Option TrickCard × Int) tc =>
            if tc.card.suit = leadSuit ∧ (getCardValue tc.card : Int) > acc.2 then
              (some tc, (getCardValue tc.card : Int))
            else acc) (best, hv)).1 = none ∧ best = none ∧
            ∀ tc ∈ trick, tc.card.suit ≠ leadSuit) ∨
      (∃ b, (trick.foldl
          (fun (acc : Option TrickCard × Int) tc =>
            if tc.card.suit = leadSuit ∧ (getCardValue tc.card : Int) > acc.2 then
              (some tc, (getCardValue tc.card : Int))
            else acc) (best, hv)).1 = some b ∧ b.card.suit = leadSuit ∧
        (trick.foldl
          (fun (acc : Option TrickCard × Int) tc =>
            if tc.card.suit = leadSuit ∧ (getCardValue tc.card : Int) > acc.2 then
              (some tc, (getCardValue tc.card : Int))
            else acc) (best, hv)).2 = (getCardValue b.card : Int) ∧
        (b ∈ trick ∨ best = some b) ∧
        (∀ tc ∈ trick, tc.card.suit = leadSuit →
          (getCardValue tc.card : Int) ≤ (trick.foldl
            (fun (acc : Option TrickCard × Int) tc =>
              if tc.card.suit = leadSuit ∧ (getCardValue tc.card : Int) > acc.2 then
                (some tc, (getCardValue tc.card : Int))
              else acc) (best, hv)).2) ∧
        hv ≤ (trick.foldl
          (fun (acc : Option TrickCard × Int) tc =>
            if tc.card.suit = leadSuit ∧ (getCardValue tc.card : Int) > acc.2 then
              (some tc, (getCardValue tc.card : Int))
            else acc) (best, hv)).2) := by
  intro trick
  induction trick with
  | nil =>
    intro best hv hwf
    rcases hwf with ⟨hb, hh⟩ | ⟨b, hb, hsuit, hh⟩
    · exact Or.inl ⟨by simp [hb], hb, by simp⟩
    · exact Or.inr ⟨b, by simp [hb], hsuit, by simp [hh], Or.inr hb, by simp, by simp⟩
  | cons tc ts ih =>
    intro best hv hwf
    simp only [List.foldl_cons]
    by_cases hcond : tc.card.suit = leadSuit ∧ (getCardValue tc.card : Int) > hv
    · rw [if_pos hcond]
      rcases ih (some tc) (getCardValue tc.card : Int)
          (Or.inr ⟨tc, rfl, hcond.1, rfl⟩) with
        ⟨_, habs, _⟩ | ⟨b, hr1, hsuit, hr2, hmem, hall, hle⟩
      · exact absurd habs (by simp)
      · refine Or.inr ⟨b, hr1, hsuit, hr2, ?_, ?_, ?_⟩
        · rcases hmem with h | h
          · exact Or.inl (List.mem_cons_of_mem tc h)
          · rw [Option.some_inj] at h
            exact Or.inl (h ▸ List.mem_cons_self tc ts)
        · intro tc' htc' hsuit'
          rcases List.mem_cons.mp htc' with rfl | h
          · exact hle
          · exact hall tc' h hsuit'
        · exact le_trans (le_of_lt hcond.2) hle
    · rw [if_neg hcond]
      rcases ih best hv hwf with
        ⟨hr1, hbest, hall⟩ | ⟨b, hr1, hsuit, hr2, hmem, hall, hle⟩
      · refine Or.inl ⟨hr1, hbest, ?_⟩
        intro tc' htc'
        rcases List.mem_cons.mp htc' with rfl | h
        · intro hsuit'
          have hhv : hv = -1 := by
            rcases hwf with ⟨_, h⟩ | ⟨b, hb, _, _⟩
            · exact h
            · rw [hbest] at hb; cases hb
          have h2 : (2 : Int) ≤ (getCardValue tc'.card : Int) := by
            exact_mod_cast getCardValue_ge_two tc'.card
          exact hcond ⟨hsuit', by omega⟩
        · exact hall tc' h
      · refine Or.inr ⟨b, hr1, hsuit, hr2, ?_, ?_, hle⟩
        · rcases hmem with h | h
          · exact Or.inl (List.mem_cons_of_mem tc h)
          · exact Or.inr h
        · intro tc' htc' hsuit'
          rcases List.mem_cons.mp htc' with rfl | h
          · have hv' : (getCardValue tc'.card : Int) ≤ hv := by
              by_contra hgt
              exact hcond ⟨hsuit', by omega⟩
            exact le_trans hv' hle
          · exact hall tc' h hsuit'

/-! ## Claims -/

/-- Claim C3: for every trick containing at least one card of the lead suit,
determineTrickWinner returns the playerId of a lead-suit TrickCard of maximal
card value; off-suit TrickCards are never returned. -/
theorem determineTrickWinner_spec (trick : List TrickCard) (leadSuit : Suit)
    (h : ∃ tc ∈ trick, tc.card.suit = leadSuit) :
    ∃ tc ∈ trick, determineTrickWinner trick leadSuit = some tc.playerId ∧
      tc.card.suit = leadSuit ∧
      ∀ tc' ∈ trick, tc'.card.suit = leadSuit →
        getCardValue tc'.card ≤ getCardValue tc.card := by
  unfold determineTrickWinner
  rcases winnerFold_spec leadSuit trick none (-1) (Or.inl ⟨rfl, rfl⟩) with
    ⟨_, _, hall⟩ | ⟨b, hr1, hsuit, hr2, hmem, hall, _⟩
  · rcases h with ⟨tc, htc, hs⟩
    exact absurd hs (hall tc htc)
  · rcases hmem with hb | hb
    · refine ⟨b, hb, ?_, hsuit, ?_⟩
      · rw [hr1]
        rfl
      · intro tc' h1 h2
        have h3 := hall tc' h1 h2
        rw [hr2] at h3
        exact_mod_cast h3
    · simp at hb

/-- Witness for C3: the spec scenario, diamonds led, the king of diamonds
played by C wins. -/
theorem determineTrickWinner_spec_witness :
    (∃ tc ∈ exTrick, tc.card.suit = Suit.diamonds) ∧
    (∃ tc ∈ exTrick, determineTrickWinner exTrick Suit.diamonds = some tc.playerId ∧
      tc.card.suit = Suit.diamonds ∧
      ∀ tc' ∈ exTrick, tc'.card.suit = Suit.diamonds →
        getCardValue tc'.card ≤ getCardValue tc.card) :=
  ⟨by decide, determineTrickWinner_spec exTrick Suit.diamonds (by decide)⟩

/-- Claim C4: for every state with a non-empty players list containing the
winner, processTrickWin increments exactly the first player entry carrying the
winner id, leaves every other entry unchanged, clears currentTrick and
leadSuit, hands the lead to the winner, increments trickNumber, and finishes
the game iff the first player's hand is empty. -/
theorem processTrickWin_spec (gs : GameState) (wid : String)
    (hne : gs.players ≠ []) (hmem : ∃ p ∈ gs.players, p.id = wid) :
    ∃ l₁ x l₂, gs.players = l₁ ++ x :: l₂ ∧ x.id = wid ∧
      (∀ y ∈ l₁, y.id ≠ wid) ∧
      (processTrickWin gs wid).players =
        l₁ ++ { x with tricksWon := x.tricksWon + 1 } :: l₂ ∧
      (processTrickWin gs wid).currentTrick = [] ∧
      (processTrickWin gs wid).leadSuit = none ∧
      (processTrickWin gs wid).currentPlayerId = wid ∧
      (processTrickWin gs wid).trickNumber = gs.trickNumber + 1 ∧
      ((processTrickWin gs wid).status = GameStatus.finished ↔
        (gs.players.head hne).hand = []) ∧
      ((processTrickWin gs wid).status = GameStatus.playing ↔
        ¬ (gs.players.head hne).hand = []) := by
  have hex : ∃ x ∈ gs.players, (fun p => p.id == wid) x = true := by
    rcases hmem with ⟨p, hp, hid⟩
    exact ⟨p, hp, by simp [hid]⟩
  rcases updateFirstBy_eq_of_exists (fun p => p.id == wid)
      (fun p => { p with tricksWon := p.tricksWon + 1 }) gs.players hex with
    ⟨l₁, x, l₂, heq, hall, hpx, hupd⟩
  have hheadD : gs.players.headD defaultPlayer = gs.players.head hne := by
    rw [List.headD_eq_head?, List.head?_eq_head hne]
    rfl
  have hhand : ((updateFirstBy (fun p => p.id == wid)
      (fun p => { p with tricksWon := p.tricksWon + 1 })
      gs.players).headD defaultPlayer).hand = (gs.players.head hne).hand := by
    rw [hupd, ← hheadD, heq]
    cases l₁ with
    | nil => simp
    | cons a t => simp
  refine ⟨l₁, x, l₂, heq, by simpa using hpx, ?_, ?_, rfl, rfl, rfl, rfl, ?_, ?_⟩
  · intro y hy
    have h := hall y hy
    simp only [beq_iff_eq] at h
    exact fun hc => by rw [hc] at h; simp at h
  · simp only [processTrickWin]
    exact hupd
  · simp only [processTrickWin, hhand]
    rcases hh : (gs.players.head hne).hand with _ | ⟨c, rest⟩
    · simp
    · simp
  · simp only [processTrickWin, hhand]
    rcases hh : (gs.players.head hne).hand with _ | ⟨c, rest⟩
    · simp
    · simp

/-- Witness for C4: player b wins a trick in exState. -/
theorem processTrickWin_spec_witness :
    (exState.players ≠ [] ∧ (∃ p ∈ exState.players, p.id = "b")) ∧
    (∃ l₁ x l₂, exState.players = l₁ ++ x :: l₂ ∧ x.id = "b" ∧
      (∀ y ∈ l₁, y.id ≠ "b") ∧
      (processTrickWin exState "b").players =
        l₁ ++ { x with tricksWon := x.tricksWon + 1 } :: l₂ ∧
      (processTrickWin exState "b").currentTrick = [] ∧
      (processTrickWin exState "b").leadSuit = none ∧
      (processTrickWin exState "b").currentPlayerId = "b" ∧
      (processTrickWin exState "b").trickNumber = exState.trickNumber + 1 ∧
      ((processTrickWin exState "b").status = GameStatus.finished ↔
        (exState.players.head (by decide)).hand = []) ∧
      ((processTrickWin exState "b").status = GameStatus.playing ↔
        ¬ (exState.players.head (by decide)).hand = [])) :=
  ⟨⟨by decide, by decide⟩, processTrickWin_spec exState "b" (by decide) (by decide)⟩

/-- Claim C5: isMoveValid tests, in order: unknown player, not the current
player, card not in hand, must-follow-suit; it reports the reason of the first
failing test and is valid exactly when none fails. -/
theorem isMoveValid_spec (gs : GameState) (pid : String) (card : Card) :
    (MoveCond1 gs pid → isMoveValid gs pid card = ⟨false, "Player not found."⟩) ∧
    (¬ MoveCond1 gs pid → MoveCond2 gs pid →
      isMoveValid gs pid card = ⟨false, "It is not your turn."⟩) ∧
    (¬ MoveCond1 gs pid → ¬ MoveCond2 gs pid → MoveCond3 gs pid card →
      isMoveValid gs pid card =
        ⟨false, "You do not have that card in your hand."⟩) ∧
    (¬ MoveCond1 gs pid → ¬ MoveCond2 gs pid → ¬ MoveCond3 gs pid card →
      MoveCond4 gs pid card →
      ∃ ls, gs.leadSuit = some ls ∧
        isMoveValid gs pid card =
          ⟨false, "You must follow suit by playing a " ++ suitName ls ++ "."⟩) ∧
    ((isMoveValid gs pid card).valid = true ↔
      ¬ MoveCond1 gs pid ∧ ¬ MoveCond2 gs pid ∧ ¬ MoveCond3 gs pid card ∧
        ¬ MoveCond4 gs pid card) := by
  rcases hfind : gs.players.find? (fun p => p.id == pid) with _ | p
  · have hc1 : MoveCond1 gs pid := by
      intro p hp
      have h := List.find?_eq_none.mp hfind p hp
      simpa using h
    have hres : isMoveValid gs pid card = ⟨false, "Player not found."⟩ := by
      simp only [isMoveValid, hfind]
    refine ⟨fun _ => hres, fun h1 _ => absurd hc1 h1, fun h1 _ _ => absurd hc1 h1,
      fun h1 _ _ _ => absurd hc1 h1, ?_⟩
    rw [hres]
    constructor
    · intro h; simp at h
    · rintro ⟨h1, -⟩; exact absurd hc1 h1
  · have hmem : p ∈ gs.players := List.mem_of_find?_eq_some hfind
    have hpid : p.id = pid := by
      have h := List.find?_some hfind
      simpa using h
    have hc1 : ¬ MoveCond1 gs pid := fun h => h p hmem hpid
    have hfp : findPlayer gs pid = some p := hfind
    have hany : (p.hand.any (fun c => c.suit == card.suit && c.rank == card.rank)
        = true) ↔ ∃ c ∈ p.hand, c.suit = card.suit ∧ c.rank = card.rank := by
      simp [List.any_eq_true]
    have hm3 : MoveCond3 gs pid card ↔
        ¬ (p.hand.any (fun c => c.suit == card.suit && c.rank == card.rank)
          = true) := by
      rw [hany]
      constructor
      · rintro h ⟨c, hc, hprop⟩
        exact h p hfp c hc hprop
      · intro h q hq c hc hprop
        rw [hfp, Option.some_inj] at hq
        exact h ⟨c, hq ▸ hc, hprop⟩
    by_cases h2 : gs.currentPlayerId = pid
    · have hc2 : ¬ MoveCond2 gs pid := fun h => h h2
      by_cases h3 : p.hand.any (fun c => c.suit == card.suit && c.rank == card.rank)
        = true
      · have hc3 : ¬ MoveCond3 gs pid card := fun h => (hm3.mp h) h3
        rcases hls : gs.leadSuit with _ | ls
        · have hc4 : ¬ MoveCond4 gs pid card := by
            rintro ⟨ls, hsome, -⟩
            rw [hls] at hsome
            cases hsome
          have hres : isMoveValid gs pid card = ⟨true, ""⟩ := by
            simp only [isMoveValid, hfind, hls]
            rw [if_neg (not_not_intro h2), if_neg (not_not_intro h3)]
          refine ⟨fun h1 => absurd h1 hc1, fun _ hM2 => absurd hM2 hc2,
            fun _ _ hM3 => absurd hM3 hc3, fun _ _ _ hM4 => absurd hM4 hc4, ?_⟩
          rw [hres]
          exact ⟨fun _ => ⟨hc1, hc2, hc3, hc4⟩, fun _ => rfl⟩
        · by_cases h4 : p.hand.any (fun c => c.suit == ls) = true ∧ card.suit ≠ ls
          · have hc4 : MoveCond4 gs pid card := by
              refine ⟨ls, hls, h4.2, ?_⟩
              intro q hq
              rw [hfp, Option.some_inj] at hq
              subst hq
              have h := h4.1
              simp only [List.any_eq_true, beq_iff_eq] at h
              exact h
            have hres : isMoveValid gs pid card =
                ⟨false, "You must follow suit by playing a " ++ suitName ls ++ "."⟩ := by
              simp only [isMoveValid, hfind, hls]
              rw [if_neg (not_not_intro h2), if_neg (not_not_intro h3), if_pos h4]
            refine ⟨fun h1 => absurd h1 hc1, fun _ hM2 => absurd hM2 hc2,
              fun _ _ hM3 => absurd hM3 hc3, fun _ _ _ _ => ⟨ls, rfl, hres⟩, ?_⟩
            rw [hres]
            constructor
            · intro h; simp at h
            · rintro ⟨-, -, -, hn4⟩; exact absurd hc4 hn4
          · have hc4 : ¬ MoveCond4 gs pid card := by
              rintro ⟨ls', hsome, hsuit, hhold⟩
              rw [hls, Option.some_inj] at hsome
              subst hsome
              rcases hhold p hfp with ⟨c, hc, hcs⟩
              refine h4 ⟨?_, hsuit⟩
              simp only [List.any_eq_true, beq_iff_eq]
              exact ⟨c, hc, hcs⟩
            have hres : isMoveValid gs pid card = ⟨true, ""⟩ := by
              simp only [isMoveValid, hfind, hls]
              rw [if_neg (not_not_intro h2), if_neg (not_not_intro h3), if_neg h4]
            refine ⟨fun h1 => absurd h1 hc1, fun _ hM2 => absurd hM2 hc2,
              fun _ _ hM3 => absurd hM3 hc3, fun _ _ _ hM4 => absurd hM4 hc4, ?_⟩
            rw [hres]
            exact ⟨fun _ => ⟨hc1, hc2, hc3, hc4⟩, fun _ => rfl⟩
      · have hc3 : MoveCond3 gs pid card := hm3.mpr h3
        have hres : isMoveValid gs pid card =
            ⟨false, "You do not have that card in your hand."⟩ := by
          simp only [isMoveValid, hfind]
          rw [if_neg (not_not_intro h2), if_pos h3]
        refine ⟨fun h1 => absurd h1 hc1, fun _ hM2 => absurd hM2 hc2,
          fun _ _ _ => hres, fun _ _ hn3 _ => absurd hc3 hn3, ?_⟩
        rw [hres]
        constructor
        · intro h; simp at h
        · rintro ⟨-, -, hn3, -⟩; exact absurd hc3 hn3
    · have hc2 : MoveCond2 gs pid := h2
      have hres : isMoveValid gs pid card = ⟨false, "It is not your turn."⟩ := by
        simp only [isMoveValid, hfind]
        rw [if_pos h2]
      refine ⟨fun h1 => absurd h1 hc1, fun _ _ => hres,
        fun _ hn2 _ => absurd hc2 hn2, fun _ hn2 _ _ => absurd hc2 hn2, ?_⟩
      rw [hres]
      constructor
      · intro h; simp at h
      · rintro ⟨-, hn2, -⟩; exact absurd hc2 hn2

/-- Witness for C5: in exState, player a holds hearts and plays the ace of
spades against a hearts lead; the move is rejected with the follow-suit
message. -/
theorem isMoveValid_spec_witness :
    (¬ MoveCond1 exState "a" ∧ ¬ MoveCond2 exState "a" ∧
      ¬ MoveCond3 exState "a" ⟨Suit.spades, Rank.A⟩ ∧
      MoveCond4 exState "a" ⟨Suit.spades, Rank.A⟩) ∧
    (∃ ls, exState.leadSuit = some ls ∧
      isMoveValid exState "a" ⟨Suit.spades, Rank.A⟩ =
        ⟨false, "You must follow suit by playing a " ++ suitName ls ++ "."⟩) := by
  have hfp : findPlayer exState "a" = some exPlayerA := by decide
  have t1 : ¬ MoveCond1 exState "a" := by
    intro h
    exact h exPlayerA (by decide) (by decide)
  have t2 : ¬ MoveCond2 exState "a" := by
    intro h
    exact h (by decide)
  have t3 : ¬ MoveCond3 exState "a" ⟨Suit.spades, Rank.A⟩ := by
    intro h
    exact h exPlayerA hfp ⟨Suit.spades, Rank.A⟩ (by decide) ⟨rfl, rfl⟩
  have t4 : MoveCond4 exState "a" ⟨Suit.spades, Rank.A⟩ := by
    refine ⟨Suit.hearts, by decide, by decide, ?_⟩
    intro q hq
    rw [hfp, Option.some_inj] at hq
    subst hq
    exact ⟨⟨Suit.hearts, Rank.n3⟩, by decide, by decide⟩
  exact ⟨⟨t1, t2, t3, t4⟩,
    (isMoveValid_spec exState "a" ⟨Suit.spades, Rank.A⟩).2.2.2.1 t1 t2 t3 t4⟩

/-- Claim C10: for a non-empty turnOrder, getNextPlayerId always yields an
element of turnOrder, and when currentPlayerId does not occur in turnOrder (in
particular when it is the empty-string sentinel) it yields the first element. -/
theorem getNextPlayerId_spec (gs : GameState) (h : gs.turnOrder ≠ []) :
    getNextPlayerId gs ∈ gs.turnOrder ∧
    (gs.currentPlayerId ∉ gs.turnOrder → getNextPlayerId gs = gs.turnOrder.head h) := by
  have hlen : 0 < gs.turnOrder.length := List.length_pos.mpr h
  by_cases hmem : gs.currentPlayerId ∈ gs.turnOrder
  · have hres : getNextPlayerId gs = gs.turnOrder.getD
        ((gs.turnOrder.indexOf gs.currentPlayerId + 1) % gs.turnOrder.length) "" := by
      simp only [getNextPlayerId, if_pos hmem]
      congr 1
    have hmod : (gs.turnOrder.indexOf gs.currentPlayerId + 1) % gs.turnOrder.length
        < gs.turnOrder.length := Nat.mod_lt _ hlen
    refine ⟨?_, fun habs => absurd hmem habs⟩
    rw [hres, List.getD_eq_getElem _ _ hmod]
    exact List.getElem_mem hmod
  · have hres : getNextPlayerId gs = gs.turnOrder.getD 0 "" := by
      simp only [getNextPlayerId, if_neg hmem]
      congr 1
    have hhead : gs.turnOrder.getD 0 "" = gs.turnOrder.head h := by
      rw [List.getD_eq_getElem _ _ hlen]
      exact List.getElem_zero hlen
    refine ⟨?_, fun _ => by rw [hres, hhead]⟩
    rw [hres, hhead]
    exact List.head_mem h

/-- Witness for C10: in exStateNoTurn the sentinel empty string is not in
turnOrder and the first player of the turn order is returned. -/
theorem getNextPlayerId_spec_witness :
    exStateNoTurn.turnOrder ≠ [] ∧
    (getNextPlayerId exStateNoTurn ∈ exStateNoTurn.turnOrder ∧
      (exStateNoTurn.currentPlayerId ∉ exStateNoTurn.turnOrder →
        getNextPlayerId exStateNoTurn = exStateNoTurn.turnOrder.head (by decide))) :=
  ⟨by decide, getNextPlayerId_spec exStateNoTurn (by decide)⟩

/-- The per-player sanitising map agrees on player lists related by the
agreement relation of AgreeExceptOtherHands. -/
theorem sanitizedPlayers_eq (t : String) :
    ∀ {ps qs : List Player},
      List.Forall₂ (fun p q : Player =>
        p.toUser = q.toUser ∧ p.tricksWon = q.tricksWon ∧ p.agoraUid = q.agoraUid ∧
        p.hand.length = q.hand.length ∧ (p.id = t → p.hand = q.hand)) ps qs →
      ps.map (fun player =>
        if player.id = t then player
        else { player with hand := player.hand.map (fun _ => placeholderCard) }) =
      qs.map (fun player =>
        if player.id = t then player
        else { player with hand := player.hand.map (fun _ => placeholderCard) }) := by
  intro ps qs h
  induction h with
  | nil => rfl
  | @cons a b ps' qs' hpq htail ih =>
    rcases hpq with ⟨huser, htw, hag, hlen, hht⟩
    have hid : a.id = b.id := congrArg User.id huser
    simp only [List.map_cons, ih]
    congr 1
    by_cases hat : a.id = t
    · rw [if_pos hat, if_pos (hid ▸ hat)]
      have hhand := hht hat
      cases a
      cases b
      simp only at huser htw hag hhand
      simp only [Player.mk.injEq]
      exact ⟨huser, hhand, htw, hag⟩
    · rw [if_neg hat, if_neg (fun hbt => hat (hid.trans hbt))]
      cases a
      cases b
      simp only at huser htw hag hlen
      simp only [Player.mk.injEq]
      refine ⟨huser, ?_, htw, hag⟩
      rw [List.map_const', List.map_const', hlen]

/-- Claim C1: the sanitized view for target t keeps every GameState field,
keeps the entry of every player whose id is t, and replaces every other
player's hand by a same-length sequence of the fixed placeholder (spades 2);
consequently the view is identical for any two states differing only in the
concealed contents of other players' hands. -/
theorem sanitizeGameStateForPlayer_spec (s : GameState) (t : String)
    (hmem : ∃ p ∈ s.players, p.id = t) :
    ((sanitizeGameStateForPlayer s t).id = s.id ∧
     (sanitizeGameStateForPlayer s t).deck = s.deck ∧
     (sanitizeGameStateForPlayer s t).currentTrick = s.currentTrick ∧
     (sanitizeGameStateForPlayer s t).leadSuit = s.leadSuit ∧
     (sanitizeGameStateForPlayer s t).currentPlayerId = s.currentPlayerId ∧
     (sanitizeGameStateForPlayer s t).turnOrder = s.turnOrder ∧
     (sanitizeGameStateForPlayer s t).round = s.round ∧
     (sanitizeGameStateForPlayer s t).trickNumber = s.trickNumber ∧
     (sanitizeGameStateForPlayer s t).status = s.status ∧
     (sanitizeGameStateForPlayer s t).hostId = s.hostId ∧
     (sanitizeGameStateForPlayer s t).maxPlayers = s.maxPlayers) ∧
    ((sanitizeGameStateForPlayer s t).players.length = s.players.length ∧
     ∀ i, i < s.players.length →
       ((s.players.getD i defaultPlayer).id = t →
         (sanitizeGameStateForPlayer s t).players.getD i defaultPlayer =
           s.players.getD i defaultPlayer) ∧
       ((s.players.getD i defaultPlayer).id ≠ t →
         (sanitizeGameStateForPlayer s t).players.getD i defaultPlayer =
           { s.players.getD i defaultPlayer with
             hand := List.replicate (s.players.getD i defaultPlayer).hand.length
               placeholderCard })) ∧
    (∀ s₂, AgreeExceptOtherHands s s₂ t →
      sanitizeGameStateForPlayer s t = sanitizeGameStateForPlayer s₂ t) := by
  refine ⟨⟨rfl, rfl, rfl, rfl, rfl, rfl, rfl, rfl, rfl, rfl, rfl⟩,
    ⟨by simp [sanitizeGameStateForPlayer], ?_⟩, ?_⟩
  · intro i hi
    have hi' : i < (sanitizeGameStateForPlayer s t).players.length := by
      simpa [sanitizeGameStateForPlayer] using hi
    have hmap : (sanitizeGameStateForPlayer s t).players.getD i defaultPlayer =
        (fun player =>
          if player.id = t then player
          else { player with hand := player.hand.map (fun _ => placeholderCard) })
          (s.players.getD i defaultPlayer) := by
      rw [List.getD_eq_getElem _ _ hi', List.getD_eq_getElem _ _ hi]
      simp [sanitizeGameStateForPlayer]
    constructor
    · intro hid
      rw [hmap]
      simp only [hid, if_pos]
    · intro hid
      rw [hmap]
      simp only [if_neg hid]
      rw [List.map_const']
  · intro s₂ hagree
    obtain ⟨h1, h2, h3, h4, h5, h6, h7, h8, h9, h10, h11, hf⟩ := hagree
    have hps := sanitizedPlayers_eq t hf
    cases s
    cases s₂
    simp only at h1 h2 h3 h4 h5 h6 h7 h8 h9 h10 h11 hps
    simp only [sanitizeGameStateForPlayer, GameState.mk.injEq]
    exact ⟨h1, hps, h2, h3, h4, h5, h6, h7, h8, h9, h10, h11⟩

/-- Witness for C1: the sanitized view of exState for player a. -/
theorem sanitizeGameStateForPlayer_spec_witness :
    (∃ p ∈ exState.players, p.id = "a") ∧
    ((sanitizeGameStateForPlayer exState "a").players.length =
      exState.players.length ∧
     ∀ i, i < exState.players.length →
       ((exState.players.getD i defaultPlayer).id = "a" →
         (sanitizeGameStateForPlayer exState "a").players.getD i defaultPlayer =
           exState.players.getD i defaultPlayer) ∧
       ((exState.players.getD i defaultPlayer).id ≠ "a" →
         (sanitizeGameStateForPlayer exState "a").players.getD i defaultPlayer =
           { exState.players.getD i defaultPlayer with
             hand := List.replicate
               (exState.players.getD i defaultPlayer).hand.length
               placeholderCard })) :=
  ⟨by decide, (sanitizeGameStateForPlayer_spec exState "a" (by decide)).2.1⟩

/-- After a play-card update the trick is non-empty and the lead suit is set. -/
theorem playCardUpdate_fields (gs : GameState) (pid : String) (card : Card) :
    (playCardUpdate gs pid card).leadSuit ≠ none ∧
    (playCardUpdate gs pid card).currentTrick ≠ [] := by
  constructor
  · rcases hls : gs.leadSuit with _ | s
    · simp only [playCardUpdate, hls]
      split <;> simp
    · simp only [playCardUpdate, hls]
      split <;> simp
  · simp only [playCardUpdate]
    split <;> simp

/-- Claim C9: leadSuit is null iff currentTrick is empty, in the initial state
and after every engine step, hence in every reachable state. -/
theorem leadSuit_none_iff_trick_empty (gs : GameState) (h : Reachable gs) :
    gs.leadSuit = none ↔ gs.currentTrick = [] := by
  induction h with
  | init rnd playerList gameId maxPlayers hne =>
    simp [setupNewGame]
  | playHuman gs pid card hr hturn hvalid ih =>
    have hp := playCardUpdate_fields gs pid card
    exact ⟨fun hl => absurd hl hp.1, fun ht => absurd ht hp.2⟩
  | playAuto gs pid card rnd hr hturn hhand ih =>
    have hp := playCardUpdate_fields gs pid card
    exact ⟨fun hl => absurd hl hp.1, fun ht => absurd ht hp.2⟩
  | resolveTrick gs leadSuit winnerId hr hlead hwin ih =>
    simp [processTrickWin]
  | advanceTurn gs hr ih =>
    simpa using ih
  | prune gs userId hr ih =>
    simpa using ih

/-- Witness for C9: the invariant holds in a freshly set-up solo game. -/
theorem leadSuit_none_iff_trick_empty_witness :
    (setupNewGame (fun _ => 0) [exSoloUser] "g" 2).leadSuit = none ↔
    (setupNewGame (fun _ => 0) [exSoloUser] "g" 2).currentTrick = [] :=
  leadSuit_none_iff_trick_empty _
    (Reachable.init (fun _ => 0) [exSoloUser] "g" 2 (by simp))

/-- Claim C6: for n in 2..4 and a duplicate-free deck, dealCards returns n
hands whose combined cards are, as a multiset, exactly the first
floor(length/n)*n cards of the deck; no card is duplicated or shared between
hands, and remainder cards are dealt to nobody. -/
theorem dealCards_spec (deck : List Card) (n : Nat)
    (hn : n ∈ ([2, 3, 4] : List Nat)) (hnodup : deck.Nodup) :
    (dealCards deck n).length = n ∧
    ((dealCards deck n).flatten : Multiset Card) =
      ((deck.take (deck.length / n * n)) : Multiset Card) ∧
    ((dealCards deck n).flatten).length = deck.length / n * n ∧
    (∀ h ∈ dealCards deck n, h.Nodup) ∧
    List.Pairwise List.Disjoint (dealCards deck n) ∧
    (∀ c ∈ deck.drop (deck.length / n * n), ∀ h ∈ dealCards deck n, c ∉ h) := by
  have hn0 : 0 < n := by
    simp only [List.mem_cons, List.not_mem_nil, or_false] at hn
    rcases hn with rfl | rfl | rfl <;> norm_num
  have hperm := dealCards_flatten_perm deck n hn0
  have hm : deck.length / n * n ≤ deck.length := Nat.div_mul_le_self deck.length n
  have htake_nodup : (deck.take (deck.length / n * n)).Nodup :=
    (List.take_sublist _ _).nodup hnodup
  have hflat_nodup : ((dealCards deck n).flatten).Nodup := hperm.symm.nodup htake_nodup
  have hnodup_parts := List.nodup_flatten.mp hflat_nodup
  refine ⟨by simp [dealCards], Multiset.coe_eq_coe.mpr hperm, ?_,
    hnodup_parts.1, hnodup_parts.2, ?_⟩
  · rw [hperm.length_eq, List.length_take]
    exact Nat.min_eq_left hm
  · intro c hc h hh hch
    have hflat : c ∈ (dealCards deck n).flatten := List.mem_flatten.mpr ⟨h, hh, hch⟩
    have htk : c ∈ deck.take (deck.length / n * n) := hperm.subset hflat
    have hdisj : (deck.take (deck.length / n * n)).Disjoint
        (deck.drop (deck.length / n * n)) := by
      have hsplit : (deck.take (deck.length / n * n) ++
          deck.drop (deck.length / n * n)).Nodup := by
        rw [List.take_append_drop]
        exact hnodup
      exact (List.nodup_append.mp hsplit).2.2
    exact hdisj htk hc

/-- Witness for C6: five distinct cards dealt to two players. -/
theorem dealCards_spec_witness :
    (2 ∈ ([2, 3, 4] : List Nat) ∧ exDeck5.Nodup) ∧
    ((dealCards exDeck5 2).length = 2 ∧
     ((dealCards exDeck5 2).flatten : Multiset Card) =
       ((exDeck5.take (exDeck5.length / 2 * 2)) : Multiset Card) ∧
     ((dealCards exDeck5 2).flatten).length = exDeck5.length / 2 * 2 ∧
     (∀ h ∈ dealCards exDeck5 2, h.Nodup) ∧
     List.Pairwise List.Disjoint (dealCards exDeck5 2) ∧
     (∀ c ∈ exDeck5.drop (exDeck5.length / 2 * 2),
       ∀ h ∈ dealCards exDeck5 2, c ∉ h)) :=
  ⟨⟨by decide, by decide⟩, dealCards_spec exDeck5 2 (by decide) (by decide)⟩

/-- Claim C8: for every outcome of the random source, createDeck yields a list
of exactly 52 cards in which every suit-rank pair occurs exactly once. -/
theorem createDeck_spec (rnd : Nat → Nat) :
    (createDeck rnd).length = 52 ∧
    ∀ (s : Suit) (r : Rank), (createDeck rnd).count ⟨s, r⟩ = 1 := by
  have hperm := createDeck_perm rnd
  constructor
  · rw [hperm.length_eq]
    rfl
  · intro s r
    rw [hperm.count_eq]
    revert r
    revert s
    decide

/-- Head variant of pairwise_head_le for an arbitrary nonempty list. -/
theorem pairwise_head_le' (le : α → α → Bool)
    (htot : ∀ a b, le a b || le b a) (l : List α) (hne : l ≠ [])
    (h : l.Pairwise (fun a b => le a b = true)) :
    ∀ y ∈ l, le (l.head hne) y = true := by
  cases l with
  | nil => exact absurd rfl hne
  | cons x t => exact pairwise_head_le le htot x t h

theorem foldr_max_ge : ∀ (l : List Nat), ∀ a ∈ l, a ≤ l.foldr Nat.max 0 := by
  intro l
  induction l with
  | nil => intro a ha; simp at ha
  | cons x t ih =>
    intro a ha
    rcases List.mem_cons.mp ha with rfl | ha
    · exact Nat.le_max_left _ _
    · exact Nat.le_trans (ih a ha) (Nat.le_max_right _ _)

theorem foldr_max_mem : ∀ (l : List Nat), l ≠ [] → l.foldr Nat.max 0 ∈ l := by
  intro l
  induction l with
  | nil => intro h; exact absurd rfl h
  | cons x t ih =>
    intro _
    cases ht : t with
    | nil => simp
    | cons y t' =>
      subst ht
      rw [List.foldr_cons]
      rcases Nat.le_total x ((y :: t').foldr Nat.max 0) with h | h
      · have hmax : Nat.max x ((y :: t').foldr Nat.max 0) =
            (y :: t').foldr Nat.max 0 := Nat.max_eq_right h
        rw [hmax]
        exact List.mem_cons_of_mem x (ih (by simp))
      · have hmax : Nat.max x ((y :: t').foldr Nat.max 0) = x := Nat.max_eq_left h
        rw [hmax]
        exact List.mem_cons_self _ _

/-- Claim C2 (amended): when a lead suit exists, the trick contains a lead-suit
card, and the hand contains lead-suit cards, the autoplay heuristic plays a
lead-suit card from the hand; if some hand card beats the highest lead-suit
card already in the trick it plays the HIGHEST-valued such beating card, and
otherwise the lowest-valued lead-suit card of the hand. -/
theorem autoPlayChosenCard_followSuit_spec (hand : List Card)
    (trick : List TrickCard) (ls : Suit) (rnd : Nat)
    (hfollow : hand.filter (fun c => c.suit == ls) ≠ [])
    (htrick : trick.filter (fun tc => tc.card.suit == ls) ≠ []) :
    ∃ c, autoPlayChosenCard hand trick (some ls) rnd = some c ∧ c ∈ hand ∧
      c.suit = ls ∧
      (beatingCards hand trick ls ≠ [] →
        c ∈ beatingCards hand trick ls ∧
        ∀ b ∈ beatingCards hand trick ls, getCardValue b ≤ getCardValue c) ∧
      (beatingCards hand trick ls = [] →
        ∀ b ∈ hand.filter (fun c => c.suit == ls),
          getCardValue c ≤ getCardValue b) := by
  have hhand_ne : hand ≠ [] := by
    intro h
    rw [h] at hfollow
    simp at hfollow
  have htot1 : ∀ a b : Card, (decide (getCardValue a ≤ getCardValue b) ||
      decide (getCardValue b ≤ getCardValue a)) = true := by
    intro a b
    rcases Nat.le_total (getCardValue a) (getCardValue b) with h | h <;> simp [h]
  have htrans1 : ∀ a b c : Card, decide (getCardValue a ≤ getCardValue b) = true →
      decide (getCardValue b ≤ getCardValue c) = true →
      decide (getCardValue a ≤ getCardValue c) = true := by
    intro a b c h1 h2
    simp only [decide_eq_true_eq] at h1 h2 ⊢
    omega
  have htot2 : ∀ a b : TrickCard,
      (decide (getCardValue b.card ≤ getCardValue a.card) ||
       decide (getCardValue a.card ≤ getCardValue b.card)) = true := by
    intro a b
    rcases Nat.le_total (getCardValue b.card) (getCardValue a.card) with h | h <;>
      simp [h]
  have htrans2 : ∀ a b c : TrickCard,
      decide (getCardValue b.card ≤ getCardValue a.card) = true →
      decide (getCardValue c.card ≤ getCardValue b.card) = true →
      decide (getCardValue c.card ≤ getCardValue a.card) = true := by
    intro a b c h1 h2
    simp only [decide_eq_true_eq] at h1 h2 ⊢
    omega
  have hsfF_perm : (sortCards (hand.filter (fun c => c.suit == ls))).Perm
      (hand.filter (fun c => c.suit == ls)) := jsSortBy_perm _ _
  have hsf_ne : sortCards (hand.filter (fun c => c.suit == ls)) ≠ [] := by
    intro h
    rw [h] at hsfF_perm
    exact hfollow hsfF_perm.symm.eq_nil
  have hsfT_perm : (jsSortBy
      (fun a b => decide (getCardValue b.card ≤ getCardValue a.card))
      (trick.filter (fun tc => tc.card.suit == ls))).Perm
      (trick.filter (fun tc => tc.card.suit == ls)) := jsSortBy_perm _ _
  have hst_ne : jsSortBy
      (fun a b => decide (getCardValue b.card ≤ getCardValue a.card))
      (trick.filter (fun tc => tc.card.suit == ls)) ≠ [] := by
    intro h
    rw [h] at hsfT_perm
    exact htrick hsfT_perm.symm.eq_nil
  have hw0 : (jsSortBy
      (fun a b => decide (getCardValue b.card ≤ getCardValue a.card))
      (trick.filter (fun tc => tc.card.suit == ls))).head? =
      some ((jsSortBy
        (fun a b => decide (getCardValue b.card ≤ getCardValue a.card))
        (trick.filter (fun tc => tc.card.suit == ls))).head hst_ne) :=
    List.head?_eq_head hst_ne
  set w0 : TrickCard := (jsSortBy
      (fun a b => decide (getCardValue b.card ≤ getCardValue a.card))
      (trick.filter (fun tc => tc.card.suit == ls))).head hst_ne with hw0def
  have hw0_mem : w0 ∈ trick.filter (fun tc => tc.card.suit == ls) :=
    hsfT_perm.subset (List.head_mem hst_ne)
  have hw0_max : ∀ tc ∈ trick.filter (fun tc => tc.card.suit == ls),
      getCardValue tc.card ≤ getCardValue w0.card := by
    intro tc htc
    have htc' : tc ∈ jsSortBy
        (fun a b => decide (getCardValue b.card ≤ getCardValue a.card))
        (trick.filter (fun tc => tc.card.suit == ls)) := hsfT_perm.symm.subset htc
    have hp := jsSortBy_pairwise
      (fun a b : TrickCard => decide (getCardValue b.card ≤ getCardValue a.card))
      htrans2 htot2 (trick.filter (fun tc => tc.card.suit == ls))
    have hle := pairwise_head_le'
      (fun a b : TrickCard => decide (getCardValue b.card ≤ getCardValue a.card))
      htot2 _ hst_ne hp tc htc'
    simpa [decide_eq_true_eq] using hle
  have hw_highest : getCardValue w0.card = highestLeadValue trick ls := by
    unfold highestLeadValue
    apply Nat.le_antisymm
    · exact foldr_max_ge _ _
        (List.mem_map_of_mem (fun tc => getCardValue tc.card) hw0_mem)
    · have hmapne : (trick.filter (fun tc => tc.card.suit == ls)).map
          (fun tc => getCardValue tc.card) ≠ [] := by
        intro h
        exact htrick (List.map_eq_nil_iff.mp h)
      rcases List.mem_map.mp (foldr_max_mem _ hmapne) with ⟨tc, htc, heq⟩
      rw [← heq]
      exact hw0_max tc htc
  have hres : autoPlayChosenCard hand trick (some ls) rnd =
      (if ((sortCards (hand.filter (fun c => c.suit == ls))).filter
            (fun c => decide (getCardValue w0.card < getCardValue c))) ≠ [] then
         ((sortCards (hand.filter (fun c => c.suit == ls))).filter
            (fun c => decide (getCardValue w0.card < getCardValue c))).getLast?
       else (sortCards (hand.filter (fun c => c.suit == ls))).head?) := by
    simp only [autoPlayChosenCard, if_neg hhand_ne, if_pos hsf_ne, hw0]
    rfl
  have hwhc_perm : ((sortCards (hand.filter (fun c => c.suit == ls))).filter
      (fun c => decide (getCardValue w0.card < getCardValue c))).Perm
      (beatingCards hand trick ls) := by
    have h1 := hsfF_perm.filter
      (fun c => decide (getCardValue w0.card < getCardValue c))
    have h2 : (hand.filter (fun c => c.suit == ls)).filter
        (fun c => decide (getCardValue w0.card < getCardValue c)) =
        beatingCards hand trick ls := by
      rw [List.filter_filter]
      unfold beatingCards
      apply List.filter_congr
      intro x _
      rw [hw_highest]
      exact Bool.and_comm _ _
    rw [h2] at h1
    exact h1
  by_cases hwin : ((sortCards (hand.filter (fun c => c.suit == ls))).filter
      (fun c => decide (getCardValue w0.card < getCardValue c))) = []
  · have hbeats_nil : beatingCards hand trick ls = [] := by
      rw [hwin] at hwhc_perm
      exact hwhc_perm.symm.eq_nil
    refine ⟨(sortCards (hand.filter (fun c => c.suit == ls))).head hsf_ne,
      ?_, ?_, ?_, ?_, ?_⟩
    · rw [hres, if_neg (not_not_intro hwin)]
      exact List.head?_eq_head hsf_ne
    · have hm : (sortCards (hand.filter (fun c => c.suit == ls))).head hsf_ne ∈
          hand.filter (fun c => c.suit == ls) :=
        hsfF_perm.subset (List.head_mem hsf_ne)
      exact (List.mem_filter.mp hm).1
    · have hm : (sortCards (hand.filter (fun c => c.suit == ls))).head hsf_ne ∈
          hand.filter (fun c => c.suit == ls) :=
        hsfF_perm.subset (List.head_mem hsf_ne)
      have := (List.mem_filter.mp hm).2
      simpa using this
    · intro hne'
      exact absurd hbeats_nil hne'
    · intro _ b hb
      have hb' : b ∈ sortCards (hand.filter (fun c => c.suit == ls)) :=
        hsfF_perm.symm.subset hb
      have hp := jsSortBy_pairwise
        (fun a b : Card => decide (getCardValue a ≤ getCardValue b))
        htrans1 htot1 (hand.filter (fun c => c.suit == ls))
      have hle := pairwise_head_le'
        (fun a b : Card => decide (getCardValue a ≤ getCardValue b))
        htot1 _ hsf_ne hp b hb'
      simpa [decide_eq_true_eq] using hle
  · have hbeats_ne : beatingCards hand trick ls ≠ [] := by
      intro h
      rw [h] at hwhc_perm
      exact hwin hwhc_perm.eq_nil
    refine ⟨((sortCards (hand.filter (fun c => c.suit == ls))).filter
        (fun c => decide (getCardValue w0.card < getCardValue c))).getLast hwin,
      ?_, ?_, ?_, ?_, ?_⟩
    · rw [hres, if_pos hwin]
      exact List.getLast?_eq_getLast _ hwin
    · have hm := hwhc_perm.subset (List.getLast_mem hwin)
      have := List.mem_filter.mp (by
        unfold beatingCards at hm
        exact hm)
      exact this.1
    · have hm := hwhc_perm.subset (List.getLast_mem hwin)
      have hmm := List.mem_filter.mp (by
        unfold beatingCards at hm
        exact hm)
      have := hmm.2
      simp only [Bool.and_eq_true, beq_iff_eq] at this
      exact this.1
    · intro _
      refine ⟨hwhc_perm.subset (List.getLast_mem hwin), ?_⟩
      intro b hb
      have hb' : b ∈ (sortCards (hand.filter (fun c => c.suit == ls))).filter
          (fun c => decide (getCardValue w0.card < getCardValue c)) :=
        hwhc_perm.symm.subset hb
      have hp := jsSortBy_pairwise
        (fun a b : Card => decide (getCardValue a ≤ getCardValue b))
        htrans1 htot1 (hand.filter (fun c => c.suit == ls))
      have hpf : ((sortCards (hand.filter (fun c => c.suit == ls))).filter
          (fun c => decide (getCardValue w0.card < getCardValue c))).Pairwise
          (fun a b => decide (getCardValue a ≤ getCardValue b) = true) :=
        List.Pairwise.sublist (List.filter_sublist _) hp
      have hle := pairwise_le_getLast
        (fun a b : Card => decide (getCardValue a ≤ getCardValue b))
        htot1 _ hwin hpf b hb'
      simpa [decide_eq_true_eq] using hle
    · intro h
      exact absurd h hbeats_ne

/-- Counterexample to C2 as stated: holding queen and king of hearts over a
jack-of-hearts trick, the heuristic plays the KING, although the queen is the
lowest-valued card beating the trick. -/
theorem autoPlayChosenCard_lowest_beating_counterexample :
    autoPlayChosenCard exAutoHand exAutoTrick (some Suit.hearts) 0 =
      some ⟨Suit.hearts, Rank.K⟩ ∧
    (⟨Suit.hearts, Rank.Q⟩ : Card) ∈ beatingCards exAutoHand exAutoTrick Suit.hearts ∧
    (⟨Suit.hearts, Rank.K⟩ : Card) ∈ beatingCards exAutoHand exAutoTrick Suit.hearts ∧
    getCardValue (⟨Suit.hearts, Rank.Q⟩ : Card) <
      getCardValue (⟨Suit.hearts, Rank.K⟩ : Card) := by
  decide

/-- Witness for the amended C2: the same scenario, fed through the amended
theorem. -/
theorem autoPlayChosenCard_followSuit_spec_witness :
    (exAutoHand.filter (fun c => c.suit == Suit.hearts) ≠ [] ∧
     exAutoTrick.filter (fun tc => tc.card.suit == Suit.hearts) ≠ []) ∧
    (∃ c, autoPlayChosenCard exAutoHand exAutoTrick (some Suit.hearts) 0 = some c ∧
      c ∈ exAutoHand ∧ c.suit = Suit.hearts ∧
      (beatingCards exAutoHand exAutoTrick Suit.hearts ≠ [] →
        c ∈ beatingCards exAutoHand exAutoTrick Suit.hearts ∧
        ∀ b ∈ beatingCards exAutoHand exAutoTrick Suit.hearts,
          getCardValue b ≤ getCardValue c) ∧
      (beatingCards exAutoHand exAutoTrick Suit.hearts = [] →
        ∀ b ∈ exAutoHand.filter (fun c => c.suit == Suit.hearts),
          getCardValue c ≤ getCardValue b)) :=
  ⟨⟨by decide, by decide⟩,
    autoPlayChosenCard_followSuit_spec exAutoHand exAutoTrick Suit.hearts 0
      (by decide) (by decide)⟩

/-- The starting player id is always the id of some player of the list. -/
theorem startingPlayerOf_mem (players : List Player) (hne : players ≠ []) :
    startingPlayerOf players ∈ players.map (fun p => p.id) := by
  have hhead : (players.headD defaultPlayer).id ∈ players.map (fun p => p.id) := by
    rw [List.headD_eq_head?, List.head?_eq_head hne]
    exact List.mem_map_of_mem _ (List.head_mem hne)
  unfold startingPlayerOf
  rcases h2c : players.find? (fun p =>
      p.hand.any (fun card => card.suit == Suit.clubs && card.rank == Rank.n2)) with _ | p
  · rcases hhost : players.find? (fun p => p.isHost) with _ | q
    · rw [h2c, hhost]
      exact hhead
    · rw [h2c, hhost]
      by_cases hq : q.id = ""
      · simp only [if_pos hq]
        exact hhead
      · simp only [if_neg hq]
        exact List.mem_map_of_mem _ (List.mem_of_find?_eq_some hhost)
  · rw [h2c]
    exact List.mem_map_of_mem _ (List.mem_of_find?_eq_some h2c)

/-- Mapping the id over players built from an enumerated user list gives the
user ids. -/
theorem enum_build_map_id (f : Nat × User → Player)
    (hf : ∀ ip, (f ip).id = ip.2.id) (l : List User) :
    (l.enum.map f).map (fun p => p.id) = l.map (fun u => u.id) := by
  rw [List.map_map]
  conv_rhs => rw [← List.enum_map_snd l, List.map_map]
  apply List.map_congr_left
  intro ip _
  exact hf ip

/-- Claim C7 (amended): setupNewGame starts playing at round 1, trick 1, with
an empty deck field; turnOrder is a rotation of the players' ids whose head is
currentPlayerId; currentPlayerId is the id of the first dealt player holding
the two of clubs, else the first host provided that host's id is not the empty
string, else the first participant. -/
theorem setupNewGame_spec (rnd : Nat → Nat) (playerList : List User)
    (gameId : String) (mp : Nat) (hne : playerList ≠ []) :
    (setupNewGame rnd playerList gameId mp).status = GameStatus.playing ∧
    (setupNewGame rnd playerList gameId mp).round = 1 ∧
    (setupNewGame rnd playerList gameId mp).trickNumber = 1 ∧
    (setupNewGame rnd playerList gameId mp).deck = [] ∧
    (setupNewGame rnd playerList gameId mp).players.map (fun p => p.id) =
      playerList.map (fun u => u.id) ∧
    (setupNewGame rnd playerList gameId mp).currentPlayerId =
      startingPlayerOf (setupNewGame rnd playerList gameId mp).players ∧
    (∀ p, (setupNewGame rnd playerList gameId mp).players.find? (fun p =>
        p.hand.any (fun card => card.suit == Suit.clubs && card.rank == Rank.n2))
        = some p →
      (setupNewGame rnd playerList gameId mp).currentPlayerId = p.id) ∧
    ((setupNewGame rnd playerList gameId mp).players.find? (fun p =>
        p.hand.any (fun card => card.suit == Suit.clubs && card.rank == Rank.n2))
        = none →
      (∀ q, (setupNewGame rnd playerList gameId mp).players.find?
          (fun p => p.isHost) = some q → q.id ≠ "" →
        (setupNewGame rnd playerList gameId mp).currentPlayerId = q.id) ∧
      (∀ q, (setupNewGame rnd playerList gameId mp).players.find?
          (fun p => p.isHost) = some q → q.id = "" →
        (setupNewGame rnd playerList gameId mp).currentPlayerId =
          ((setupNewGame rnd playerList gameId mp).players.headD defaultPlayer).id) ∧
      ((setupNewGame rnd playerList gameId mp).players.find?
          (fun p => p.isHost) = none →
        (setupNewGame rnd playerList gameId mp).currentPlayerId =
          ((setupNewGame rnd playerList gameId mp).players.headD defaultPlayer).id)) ∧
    (setupNewGame rnd playerList gameId mp).turnOrder.head? =
      some (setupNewGame rnd playerList gameId mp).currentPlayerId ∧
    (∃ k, k < ((setupNewGame rnd playerList gameId mp).players.map
        (fun p => p.id)).length ∧
      (setupNewGame rnd playerList gameId mp).turnOrder =
        ((setupNewGame rnd playerList gameId mp).players.map (fun p => p.id)).drop k
          ++ ((setupNewGame rnd playerList gameId mp).players.map
            (fun p => p.id)).take k) := by
  have hids : (setupNewGame rnd playerList gameId mp).players.map (fun p => p.id) =
      playerList.map (fun u => u.id) :=
    enum_build_map_id _ (fun ip => rfl) playerList
  have hplayers_ne : (setupNewGame rnd playerList gameId mp).players ≠ [] := by
    intro h
    have hmap := congrArg (List.map (fun p : Player => p.id)) h
    rw [hids] at hmap
    simp only [List.map_nil, List.map_eq_nil_iff] at hmap
    exact hne hmap
  have hmem := startingPlayerOf_mem
    (setupNewGame rnd playerList gameId mp).players hplayers_ne
  have hidx : ((setupNewGame rnd playerList gameId mp).players.map
      (fun p => p.id)).indexOf
        (startingPlayerOf (setupNewGame rnd playerList gameId mp).players) <
      ((setupNewGame rnd playerList gameId mp).players.map
        (fun p => p.id)).length :=
    List.indexOf_lt_length.mpr hmem
  have hrot := rotateToStart_eq
    (startingPlayerOf (setupNewGame rnd playerList gameId mp).players)
    ((setupNewGame rnd playerList gameId mp).players.map (fun p => p.id)).length
    ((setupNewGame rnd playerList gameId mp).players.map (fun p => p.id))
    hmem hidx
  have hhead := rotateToStart_head
    (startingPlayerOf (setupNewGame rnd playerList gameId mp).players)
    ((setupNewGame rnd playerList gameId mp).players.map (fun p => p.id)) hmem
  refine ⟨rfl, rfl, rfl, rfl, hids, rfl, ?_, ?_, hhead, ?_⟩
  · intro p hp
    show startingPlayerOf (setupNewGame rnd playerList gameId mp).players = p.id
    unfold startingPlayerOf
    rw [hp]
  · intro h2c
    refine ⟨?_, ?_, ?_⟩
    · intro q hq hqne
      show startingPlayerOf (setupNewGame rnd playerList gameId mp).players = q.id
      unfold startingPlayerOf
      rw [h2c, hq]
      simp only [if_neg hqne]
    · intro q hq hqe
      show startingPlayerOf (setupNewGame rnd playerList gameId mp).players = _
      unfold startingPlayerOf
      rw [h2c, hq]
      simp only [if_pos hqe]
    · intro hnone
      show startingPlayerOf (setupNewGame rnd playerList gameId mp).players = _
      unfold startingPlayerOf
      rw [h2c, hnone]
  · exact ⟨_, hidx, hrot⟩

/-- Counterexample to C7 as stated: with three users whose host has the empty
string as id and a shuffle that leaves the two of clubs undealt, no hand holds
the two of clubs, yet the starting player is the first participant a, not the
host - the claimed fallback to the host does not happen because the JavaScript
|| operator treats the empty-string id as absent. -/
theorem setupNewGame_host_fallback_counterexample :
    (∀ p ∈ (setupNewGame exRnd exUsers "g" 3).players,
      ¬ ((⟨Suit.clubs, Rank.n2⟩ : Card) ∈ p.hand)) ∧
    (∃ p ∈ (setupNewGame exRnd exUsers "g" 3).players, p.isHost ∧ p.id = "") ∧
    (∀ p ∈ (setupNewGame exRnd exUsers "g" 3).players, p.isHost → p.id = "") ∧
    (setupNewGame exRnd exUsers "g" 3).currentPlayerId = "a" ∧
    "a" ≠ "" := by
  decide

/-- Witness for the amended C7: a one-player game; the solo player holds the
two of clubs and leads. -/
theorem setupNewGame_spec_witness :
    [exSoloUser] ≠ [] ∧
    ((setupNewGame (fun _ => 0) [exSoloUser] "g" 2).status = GameStatus.playing ∧
    (setupNewGame (fun _ => 0) [exSoloUser] "g" 2).round = 1 ∧
    (setupNewGame (fun _ => 0) [exSoloUser] "g" 2).trickNumber = 1 ∧
    (setupNewGame (fun _ => 0) [exSoloUser] "g" 2).deck = [] ∧
    (setupNewGame (fun _ => 0) [exSoloUser] "g" 2).players.map (fun p => p.id) =
      [exSoloUser].map (fun u => u.id) ∧
    (setupNewGame (fun _ => 0) [exSoloUser] "g" 2).currentPlayerId =
      startingPlayerOf (setupNewGame (fun _ => 0) [exSoloUser] "g" 2).players ∧
    (∀ p, (setupNewGame (fun _ => 0) [exSoloUser] "g" 2).players.find? (fun p =>
        p.hand.any (fun card => card.suit == Suit.clubs && card.rank == Rank.n2))
        = some p →
      (setupNewGame (fun _ => 0) [exSoloUser] "g" 2).currentPlayerId = p.id) ∧
    ((setupNewGame (fun _ => 0) [exSoloUser] "g" 2).players.find? (fun p =>
        p.hand.any (fun card => card.suit == Suit.clubs && card.rank == Rank.n2))
        = none →
      (∀ q, (setupNewGame (fun _ => 0) [exSoloUser] "g" 2).players.find?
          (fun p => p.isHost) = some q → q.id ≠ "" →
        (setupNewGame (fun _ => 0) [exSoloUser] "g" 2).currentPlayerId = q.id) ∧
      (∀ q, (setupNewGame (fun _ => 0) [exSoloUser] "g" 2).players.find?
          (fun p => p.isHost) = some q → q.id = "" →
        (setupNewGame (fun _ => 0) [exSoloUser] "g" 2).currentPlayerId =
          ((setupNewGame (fun _ => 0) [exSoloUser] "g" 2).players.headD
            defaultPlayer).id) ∧
      ((setupNewGame (fun _ => 0) [exSoloUser] "g" 2).players.find?
          (fun p => p.isHost) = none →
        (setupNewGame (fun _ => 0) [exSoloUser] "g" 2).currentPlayerId =
          ((setupNewGame (fun _ => 0) [exSoloUser] "g" 2).players.headD
            defaultPlayer).id)) ∧
    (setupNewGame (fun _ => 0) [exSoloUser] "g" 2).turnOrder.head? =
      some (setupNewGame (fun _ => 0) [exSoloUser] "g" 2).currentPlayerId ∧
    (∃ k, k < ((setupNewGame (fun _ => 0) [exSoloUser] "g" 2).players.map
        (fun p => p.id)).length ∧
      (setupNewGame (fun _ => 0) [exSoloUser] "g" 2).turnOrder =
        ((setupNewGame (fun _ => 0) [exSoloUser] "g" 2).players.map
          (fun p => p.id)).drop k
          ++ ((setupNewGame (fun _ => 0) [exSoloUser] "g" 2).players.map
            (fun p => p.id)).take k)) :=
  ⟨by simp, setupNewGame_spec (fun _ => 0) [exSoloUser] "g" 2 (by simp)⟩
